import Mathlib

/-!
Shallow embedding of the effective-dated minijob setting timeline of
src/backend/server.js and src/backend/database.js.

Calendar dates are modelled as integer day numbers: the handlers compare
ISO YYYY-MM-DD strings lexicographically, which is order-isomorphic to the
day number of the date, and the setDate(getDate() - 1) idiom computes the
previous calendar day, i.e. day number minus one.  All date-valued columns
(validFrom, validUntil) therefore become Int, with validUntil an Option Int
where none models the SQL NULL ("unbegrenzt").

Each mutating handler ends by calling MinijobSetting.updateActiveStatus,
which rewrites only the derived isActive flags and no date or amount
column; the operations are modelled up to that resolver step, and the
stateless selection rule it shares with getCurrentSetting is embedded as
getCurrentSetting.
-/

namespace Minijob

/-- A row of the MinijobSettings table (database.js, model MinijobSetting). -/
structure Setting where
  id : Nat
  monthlyLimit : Int
  description : String
  validFrom : Int
  validUntil : Option Int
  isActive : Bool
  createdBy : Nat
  deriving DecidableEq, Repr

/-- SQL predicate "u IS NULL OR u >= d", used by the overlap query and the
current-setting query. -/
def nullOrGe (u : Option Int) (d : Int) : Bool :=
  match u with
  | none => true
  | some x => decide (d ≤ x)

/-- The where-clause of getCurrentSetting and updateActiveStatus
(database.js): validFrom <= today AND (validUntil IS NULL OR
validUntil >= today). -/
def covers (today : Int) (s : Setting) : Bool :=
  decide (s.validFrom ≤ today) && nullOrGe s.validUntil today

/-- MinijobSetting.getCurrentSetting (database.js lines 145-165): findOne
over the rows covering today, ordered by validFrom DESC, i.e. some covering
row of maximal validFrom (the earliest-listed one when several share the
maximal validFrom, a tie the SQL order clause leaves unspecified). -/
def getCurrentSetting (today : Int) : List Setting → Option Setting
  | [] => none
  | s :: rest =>
    let r := getCurrentSetting today rest
    if covers today s then
      match r with
      | none => some s
      | some m => if s.validFrom < m.validFrom then some m else some s
    else r

/-- Entry of the autoAdjustedSettings array built by the create handler
(server.js lines 626-631); oldValidUntil is always the NULL sentinel there,
so only the new end date is recorded. -/
structure AutoAdj where
  id : Nat
  description : String
  newValidUntil : Int
  deriving DecidableEq, Repr

/-- Entry of the adjustedSettings array built by the delete handler
(server.js lines 802-808). -/
structure DelAdj where
  id : Nat
  description : String
  oldValidUntil : Option Int
  newValidUntil : Option Int
  deriving DecidableEq, Repr

/-- Entry of the adjustments array built by the recalculation handler
(server.js lines 878-884). -/
structure RecalcAdj where
  id : Nat
  description : String
  validFrom : Int
  oldValidUntil : Option Int
  newValidUntil : Option Int
  deriving DecidableEq, Repr

/-- The Op.or where-clause of the create handler overlap query (server.js
lines 579-605).  Disjunct one: the existing row starts on or before the new
start and is open or ends on or after the new start.  When the proposed
validUntil is present there are two further disjuncts; when it is absent
those members of the Op.or array are empty objects, which Sequelize drops
from the generated SQL. -/
def overlapsQuery (f : Int) (u? : Option Int) (s : Setting) : Bool :=
  (decide (s.validFrom ≤ f) && nullOrGe s.validUntil f) ||
    (match u? with
     | none => false
     | some u =>
       (decide (s.validFrom ≤ u) && nullOrGe s.validUntil u) ||
         (decide (f ≤ s.validFrom) &&
           (match s.validUntil with
            | none => false
            | some su => decide (su ≤ u))))

/-- The overlappingSettings result of the create handler (server.js lines
579-605). -/
def overlapping (f : Int) (u? : Option Int) (store : List Setting) :
    List Setting :=
  store.filter (fun s => overlapsQuery f u? s)

/-- The row MinijobSetting.create inserts in the create handler (server.js
lines 651-657); newId is the value the autoincrement column assigns,
isActive has its column default false. -/
def newRecord (newId creator : Nat) (limit : Int) (descr : String)
    (f : Int) (u? : Option Int) : Setting :=
  { id := newId, monthlyLimit := limit, description := descr,
    validFrom := f, validUntil := u?, isActive := false,
    createdBy := creator }

/-- A row.update write that sets validUntil of the row with primary key rid
(used by the create auto-adjust and the delete back-adjust). -/
def setRowUntil (rid : Nat) (u : Option Int) (store : List Setting) :
    List Setting :=
  store.map (fun t => if t.id = rid then { t with validUntil := u } else t)

/-- Error outcomes of the create handler: 400 for a start date in the past,
400 for an end date not strictly after the start date, 409 carrying the
conflictingSettings list. -/
inductive CreateErr where
  | pastStart : CreateErr
  | endNotAfterStart : CreateErr
  | conflict : List Setting → CreateErr
  deriving DecidableEq, Repr

/-- POST /api/admin/minijob-settings (server.js lines 552-678), after the
express-validator field checks; today is the injected current date.  On
success returns the new store, the created row and the autoAdjustedSettings
list. -/
def createSetting (today : Int) (newId creator : Nat) (limit : Int)
    (descr : String) (f : Int) (u? : Option Int) (store : List Setting) :
    Except CreateErr (List Setting × Setting × List AutoAdj) :=
  if f < today then .error .pastStart
  else if (match u? with | some u => decide (u ≤ f) | none => false) then
    .error .endNotAfterStart
  else
    match overlapping f u? store with
    | [] => .ok (store ++ [newRecord newId creator limit descr f u?],
                 newRecord newId creator limit descr f u?, [])
    | [p] =>
      if p.validUntil = none ∧ p.validFrom < f then
        .ok (setRowUntil p.id (some (f - 1)) store
               ++ [newRecord newId creator limit descr f u?],
             newRecord newId creator limit descr f u?,
             [{ id := p.id, description := p.description,
                newValidUntil := f - 1 }])
      else .error (.conflict (overlapping f u? store))
    | _ => .error (.conflict (overlapping f u? store))

/-- The store left behind by a create request: the new store on success,
the untouched input store when the handler returned an error response
before performing any write. -/
def storeAfterCreate (today : Int) (newId creator : Nat) (limit : Int)
    (descr : String) (f : Int) (u? : Option Int) (store : List Setting) :
    List Setting :=
  match createSetting today newId creator limit descr f u? store with
  | .ok (st, _, _) => st
  | .error _ => store

/-- Error outcomes of the update handler: 404 and the 400 date-order check. -/
inductive UpdateErr where
  | notFound : UpdateErr
  | endNotAfterStart : UpdateErr
  deriving DecidableEq, Repr

/-- findByPk on the settings table. -/
def findById (store : List Setting) (sid : Nat) : Option Setting :=
  store.find? (fun s => decide (s.id = sid))

/-- A row.update write that replaces the whole row with primary key rid. -/
def replaceRow (rid : Nat) (s2 : Setting) (store : List Setting) :
    List Setting :=
  store.map (fun t => if t.id = rid then s2 else t)

/-- PUT /api/admin/minijob-settings/:id (server.js lines 698-741), after the
express-validator field checks.  The handler has no past-date restriction
and performs no overlap check against sibling rows. -/
def updateSetting (sid : Nat) (limit : Int) (descr : String) (f : Int)
    (u? : Option Int) (store : List Setting) :
    Except UpdateErr (List Setting × Setting) :=
  match findById store sid with
  | none => .error .notFound
  | some s =>
    if (match u? with | some u => decide (u ≤ f) | none => false) then
      .error .endNotAfterStart
    else
      .ok (replaceRow sid
             { s with monthlyLimit := limit, description := descr,
                      validFrom := f, validUntil := u? } store,
           { s with monthlyLimit := limit, description := descr,
                    validFrom := f, validUntil := u? })

/-- Error outcomes of the delete handler: 404 and the 400 rejection of
active or historical rows. -/
inductive DeleteErr where
  | notFound : DeleteErr
  | illegalState : DeleteErr
  deriving DecidableEq, Repr

/-- Row of minimal validFrom in a list: the first row of an ORDER BY
validFrom ASC result, keeping the earlier-listed row on ties. -/
def pickMinFrom : List Setting → Option Setting
  | [] => none
  | s :: rest =>
    match pickMinFrom rest with
    | none => some s
    | some m => if m.validFrom < s.validFrom then some m else some s

/-- Row of maximal validFrom in a list: the first row of an ORDER BY
validFrom DESC result, keeping the earlier-listed row on ties. -/
def pickMaxFrom : List Setting → Option Setting
  | [] => none
  | s :: rest =>
    match pickMaxFrom rest with
    | none => some s
    | some m => if s.validFrom < m.validFrom then some m else some s

/-- The laterSettings query of the delete handler (server.js lines
767-773): rows with validFrom strictly after the target row, the target
excluded. -/
def laterSettings (store : List Setting) (r : Setting) : List Setting :=
  store.filter
    (fun s => decide (r.validFrom < s.validFrom) && decide (s.id ≠ r.id))

/-- The rows eligible as previousSetting in the delete handler (server.js
lines 776-782): validFrom strictly before the target row, target excluded. -/
def earlierSettings (store : List Setting) (r : Setting) : List Setting :=
  store.filter
    (fun s => decide (s.validFrom < r.validFrom) && decide (s.id ≠ r.id))

/-- The chronologically next row after r: laterSettings ordered ASC, first
element. -/
def nextSetting (store : List Setting) (r : Setting) : Option Setting :=
  pickMinFrom (laterSettings store r)

/-- The chronologically previous row before r: findOne ordered by validFrom
DESC. -/
def prevSetting (store : List Setting) (r : Setting) : Option Setting :=
  pickMaxFrom (earlierSettings store r)

/-- The value the delete handler writes into the previous row: one day
before the next row starts, or NULL when no later row exists (server.js
lines 786-796). -/
def delNewUntil (store : List Setting) (r : Setting) : Option Int :=
  match nextSetting store r with
  | some n => some (n.validFrom - 1)
  | none => none

/-- A row.destroy: remove the row with primary key sid. -/
def removeRow (sid : Nat) (store : List Setting) : List Setting :=
  store.filter (fun s => decide (s.id ≠ sid))

/-- DELETE /api/admin/minijob-settings/:id (server.js lines 744-843).
On success returns the new store, the snapshot of the deleted row and the
adjustedSettings list; the back-adjustment of the previous row is written
and reported unconditionally, even when the value did not change. -/
def deleteSetting (today : Int) (sid : Nat) (store : List Setting) :
    Except DeleteErr (List Setting × Setting × List DelAdj) :=
  match findById store sid with
  | none => .error .notFound
  | some r =>
    if r.validFrom ≤ today then .error .illegalState
    else
      match prevSetting store r with
      | some p =>
        .ok (removeRow sid (setRowUntil p.id (delNewUntil store r) store),
             r,
             [{ id := p.id, description := p.description,
                oldValidUntil := p.validUntil,
                newValidUntil := delNewUntil store r }])
      | none => .ok (removeRow sid store, r, [])

/-- The store left behind by a delete request: the new store on success,
the untouched input store when the handler returned an error response
before performing any write. -/
def storeAfterDelete (today : Int) (sid : Nat) (store : List Setting) :
    List Setting :=
  match deleteSetting today sid store with
  | .ok (st, _, _) => st
  | .error _ => store

/-- The findAll ORDER BY validFrom ASC of the recalculation handler
(server.js lines 851-853), modelled by a stable sort on validFrom. -/
def sortByFrom (l : List Setting) : List Setting :=
  List.insertionSort (fun a b => a.validFrom ≤ b.validFrom) l

/-- The newValidUntil value the recalculation loop computes for a row from
the list of rows after it: one day before the next row starts, NULL for the
last row (server.js lines 863-870). -/
def nextBound : List Setting → Option Int
  | [] => none
  | t :: _ => some (t.validFrom - 1)

/-- The correction loop of the recalculation handler (server.js lines
859-886) over the rows in ascending validFrom order: a row is written and
recorded in the adjustments list only when its validUntil actually changes.
Returns the new row list, adjustedCount and the adjustments list. -/
def recalcPass : List Setting → List Setting × Nat × List RecalcAdj
  | [] => ([], 0, [])
  | s :: rest =>
    let out := recalcPass rest
    if s.validUntil = nextBound rest then
      (s :: out.1, out.2.1, out.2.2)
    else
      ({ s with validUntil := nextBound rest } :: out.1, out.2.1 + 1,
       { id := s.id, description := s.description, validFrom := s.validFrom,
         oldValidUntil := s.validUntil,
         newValidUntil := nextBound rest } :: out.2.2)

/-- POST /api/admin/minijob-settings/recalculate-periods (server.js lines
846-902): sort ascending by validFrom, then run the correction loop. -/
def recalculateAll (store : List Setting) :
    List Setting × Nat × List RecalcAdj :=
  recalcPass (sortByFrom store)

/-- The inclusive intervals of two rows intersect: a.validFrom is on or
before the end of b and b.validFrom is on or before the end of a, a NULL
end meaning plus infinity. -/
def intervalsIntersect (a b : Setting) : Bool :=
  nullOrGe b.validUntil a.validFrom && nullOrGe a.validUntil b.validFrom

/-- The proposed interval of a create request intersects the interval of an
existing row s. -/
def proposedIntersects (f : Int) (u? : Option Int) (s : Setting) : Bool :=
  nullOrGe s.validUntil f && nullOrGe u? s.validFrom

/-- A row is well formed when its end, if bounded, is not before its start;
every row the API writes satisfies this. -/
def settingWF (s : Setting) : Bool :=
  match s.validUntil with
  | none => true
  | some u => decide (s.validFrom ≤ u)

/-- Shape the recalculation pass establishes (spec invariant I5): every row
ends exactly one day before the next row starts and the final row is
open-ended. -/
def untilsCorrect : List Setting → Prop
  | [] => True
  | [s] => s.validUntil = none
  | s :: t :: rest =>
    s.validUntil = some (t.validFrom - 1) ∧ untilsCorrect (t :: rest)

/-! ## Helper lemmas -/

theorem findById_mem {store : List Setting} {sid : Nat} {s : Setting}
    (h : findById store sid = some s) : s ∈ store ∧ s.id = sid := by
  refine ⟨List.mem_of_find?_eq_some h, ?_⟩
  simpa using List.find?_some h

theorem pickMaxFrom_eq_none {l : List Setting} (h : pickMaxFrom l = none) :
    l = [] := by
  cases l with
  | nil => rfl
  | cons s rest =>
    rw [pickMaxFrom] at h
    cases hr : pickMaxFrom rest <;> rw [hr] at h <;> simp at h
    split at h <;> simp at h

theorem pickMaxFrom_spec {l : List Setting} {m : Setting}
    (h : pickMaxFrom l = some m) :
    m ∈ l ∧ ∀ s ∈ l, s.validFrom ≤ m.validFrom := by
  induction l generalizing m with
  | nil => simp [pickMaxFrom] at h
  | cons s rest ih =>
    rw [pickMaxFrom] at h
    cases hr : pickMaxFrom rest with
    | none =>
      rw [hr] at h
      obtain rfl : s = m := by simpa using h
      have hrest : rest = [] := pickMaxFrom_eq_none hr
      subst hrest
      exact ⟨by simp, by intro x hx; simp at hx; subst hx; exact le_refl _⟩
    | some m2 =>
      rw [hr] at h
      have h2 : (if s.validFrom < m2.validFrom then some m2 else some s) =
          some m := h
      obtain ⟨hmem2, hbound2⟩ := ih hr
      by_cases hlt : s.validFrom < m2.validFrom
      · rw [if_pos hlt] at h2
        obtain rfl : m2 = m := by simpa using h2
        refine ⟨List.mem_cons_of_mem _ hmem2, ?_⟩
        intro x hx
        rcases List.mem_cons.mp hx with rfl | hx
        · exact le_of_lt hlt
        · exact hbound2 x hx
      · rw [if_neg hlt] at h2
        obtain rfl : s = m := by simpa using h2
        refine ⟨List.mem_cons_self _ _, ?_⟩
        intro x hx
        rcases List.mem_cons.mp hx with rfl | hx
        · exact le_refl _
        · exact le_trans (hbound2 x hx) (not_lt.mp hlt)

theorem pickMinFrom_eq_none {l : List Setting} (h : pickMinFrom l = none) :
    l = [] := by
  cases l with
  | nil => rfl
  | cons s rest =>
    rw [pickMinFrom] at h
    cases hr : pickMinFrom rest <;> rw [hr] at h <;> simp at h
    split at h <;> simp at h

theorem pickMinFrom_spec {l : List Setting} {m : Setting}
    (h : pickMinFrom l = some m) :
    m ∈ l ∧ ∀ s ∈ l, m.validFrom ≤ s.validFrom := by
  induction l generalizing m with
  | nil => simp [pickMinFrom] at h
  | cons s rest ih =>
    rw [pickMinFrom] at h
    cases hr : pickMinFrom rest with
    | none =>
      rw [hr] at h
      obtain rfl : s = m := by simpa using h
      have hrest : rest = [] := pickMinFrom_eq_none hr
      subst hrest
      exact ⟨by simp, by intro x hx; simp at hx; subst hx; exact le_refl _⟩
    | some m2 =>
      rw [hr] at h
      have h2 : (if m2.validFrom < s.validFrom then some m2 else some s) =
          some m := h
      obtain ⟨hmem2, hbound2⟩ := ih hr
      by_cases hlt : m2.validFrom < s.validFrom
      · rw [if_pos hlt] at h2
        obtain rfl : m2 = m := by simpa using h2
        refine ⟨List.mem_cons_of_mem _ hmem2, ?_⟩
        intro x hx
        rcases List.mem_cons.mp hx with rfl | hx
        · exact le_of_lt hlt
        · exact hbound2 x hx
      · rw [if_neg hlt] at h2
        obtain rfl : s = m := by simpa using h2
        refine ⟨List.mem_cons_self _ _, ?_⟩
        intro x hx
        rcases List.mem_cons.mp hx with rfl | hx
        · exact le_refl _
        · exact le_trans (not_lt.mp hlt) (hbound2 x hx)

/-! ## Claim C7: delete rejected for past or active rows -/

/-- C7: for every existing row whose validFrom is on or before today, the
delete handler fails with the IllegalStateError response and the store is
left exactly as it was: no row removed, no neighbour adjusted. -/
theorem delete_rejects_past_or_active (today : Int) (sid : Nat)
    (store : List Setting) (r : Setting)
    (hfind : findById store sid = some r) (hpast : r.validFrom ≤ today) :
    deleteSetting today sid store = .error .illegalState ∧
      storeAfterDelete today sid store = store := by
  have h1 : deleteSetting today sid store = .error .illegalState := by
    rw [deleteSetting, hfind]
    simp [hpast]
  exact ⟨h1, by rw [storeAfterDelete, h1]⟩

/-- Witness for C7: a store with one row starting day 5 and today = 10. -/
theorem delete_rejects_past_or_active_witness :
    deleteSetting 10 1
        [{ id := 1, monthlyLimit := 538, description := "c seven row",
           validFrom := 5, validUntil := none, isActive := false,
           createdBy := 7 }] = .error .illegalState ∧
      storeAfterDelete 10 1
        [{ id := 1, monthlyLimit := 538, description := "c seven row",
           validFrom := 5, validUntil := none, isActive := false,
           createdBy := 7 }] =
        [{ id := 1, monthlyLimit := 538, description := "c seven row",
           validFrom := 5, validUntil := none, isActive := false,
           createdBy := 7 }] :=
  delete_rejects_past_or_active 10 1 _ _ rfl (by decide)

/-! ## Claim C8: update is permissive -/

/-- C8: on an existing id, with validUntil absent or strictly after
validFrom, the update succeeds and persists the replacement monthlyLimit,
description, validFrom and validUntil.  The statement carries no hypothesis
about today and none about sibling rows: the handler checks neither, so the
update goes through even when the resulting interval overlaps another row. -/
theorem update_permissive (sid : Nat) (limit : Int) (descr : String)
    (f : Int) (u? : Option Int) (store : List Setting) (s : Setting)
    (hfind : findById store sid = some s)
    (hrange : ∀ u, u? = some u → f < u) :
    updateSetting sid limit descr f u? store =
      .ok (replaceRow sid
             { s with monthlyLimit := limit, description := descr,
                      validFrom := f, validUntil := u? } store,
           { s with monthlyLimit := limit, description := descr,
                    validFrom := f, validUntil := u? }) := by
  cases u? with
  | none =>
    rw [updateSetting.eq_def, hfind]
    simp
  | some u =>
    have hd : decide (u ≤ f) = false :=
      decide_eq_false_iff_not.mpr (not_le.mpr (hrange u rfl))
    rw [updateSetting.eq_def, hfind]
    simp [hd]

/-- Witness for C8: editing row 2 to start day 5 with end day 30 succeeds
although the result overlaps row 1 (days 0 to 10). -/
theorem update_permissive_witness :
    updateSetting 2 30 "c eight edited" 5 (some 30)
        [{ id := 1, monthlyLimit := 10, description := "c eight a",
           validFrom := 0, validUntil := some 10, isActive := false,
           createdBy := 7 },
         { id := 2, monthlyLimit := 20, description := "c eight b",
           validFrom := 20, validUntil := none, isActive := false,
           createdBy := 7 }] =
      .ok ([{ id := 1, monthlyLimit := 10, description := "c eight a",
              validFrom := 0, validUntil := some 10, isActive := false,
              createdBy := 7 },
            { id := 2, monthlyLimit := 30, description := "c eight edited",
              validFrom := 5, validUntil := some 30, isActive := false,
              createdBy := 7 }],
           { id := 2, monthlyLimit := 30, description := "c eight edited",
             validFrom := 5, validUntil := some 30, isActive := false,
             createdBy := 7 }) ∧
    intervalsIntersect
        { id := 1, monthlyLimit := 10, description := "c eight a",
          validFrom := 0, validUntil := some 10, isActive := false,
          createdBy := 7 }
        { id := 2, monthlyLimit := 30, description := "c eight edited",
          validFrom := 5, validUntil := some 30, isActive := false,
          createdBy := 7 } = true :=
  ⟨update_permissive 2 30 "c eight edited" 5 (some 30)
      [{ id := 1, monthlyLimit := 10, description := "c eight a",
         validFrom := 0, validUntil := some 10, isActive := false,
         createdBy := 7 },
       { id := 2, monthlyLimit := 20, description := "c eight b",
         validFrom := 20, validUntil := none, isActive := false,
         createdBy := 7 }]
      { id := 2, monthlyLimit := 20, description := "c eight b",
        validFrom := 20, validUntil := none, isActive := false,
        createdBy := 7 } rfl
      (by intro u hu; cases hu; decide),
   by decide⟩

/-! ## Claim C9: the current-setting query -/

/-- C9: getCurrentSetting returns at most one row, it being an Option;
when it returns none no stored row covers today, and when it returns a row
that row is stored, covers today, and has maximal validFrom among all
stored rows covering today. -/
theorem getCurrent_at_most_one_and_maximal (today : Int)
    (store : List Setting) :
    (getCurrentSetting today store = none →
       ∀ s ∈ store, covers today s = false) ∧
    (∀ r, getCurrentSetting today store = some r →
       r ∈ store ∧ covers today r = true ∧
         ∀ s ∈ store, covers today s = true → s.validFrom ≤ r.validFrom) := by
  induction store with
  | nil =>
    constructor
    · intro _ s hs; simp at hs
    · intro r hr; simp [getCurrentSetting] at hr
  | cons s rest ih =>
    by_cases hc : covers today s = true
    · cases hrec : getCurrentSetting today rest with
      | none =>
        have hval : getCurrentSetting today (s :: rest) = some s := by
          simp [getCurrentSetting, hrec, hc]
        constructor
        · intro hnone; rw [hval] at hnone; exact absurd hnone (by simp)
        · intro r hr
          rw [hval] at hr
          obtain rfl : s = r := by simpa using hr
          refine ⟨List.mem_cons_self _ _, hc, ?_⟩
          intro x hx hcx
          rcases List.mem_cons.mp hx with rfl | hx
          · exact le_refl _
          · rw [ih.1 hrec x hx] at hcx; exact absurd hcx (by simp)
      | some m =>
        obtain ⟨hm_mem, hm_cov, hm_max⟩ := ih.2 m hrec
        by_cases hlt : s.validFrom < m.validFrom
        · have hval : getCurrentSetting today (s :: rest) = some m := by
            simp [getCurrentSetting, hrec, hc, hlt]
          constructor
          · intro hnone; rw [hval] at hnone; simp at hnone
          · intro r hr
            rw [hval] at hr
            obtain rfl : m = r := by simpa using hr
            refine ⟨List.mem_cons_of_mem _ hm_mem, hm_cov, ?_⟩
            intro x hx hcx
            rcases List.mem_cons.mp hx with rfl | hx
            · exact le_of_lt hlt
            · exact hm_max x hx hcx
        · have hval : getCurrentSetting today (s :: rest) = some s := by
            simp [getCurrentSetting, hrec, hc, hlt]
          constructor
          · intro hnone; rw [hval] at hnone; simp at hnone
          · intro r hr
            rw [hval] at hr
            obtain rfl : s = r := by simpa using hr
            refine ⟨List.mem_cons_self _ _, hc, ?_⟩
            intro x hx hcx
            rcases List.mem_cons.mp hx with rfl | hx
            · exact le_refl _
            · exact le_trans (hm_max x hx hcx) (not_lt.mp hlt)
    · have hc2 : covers today s = false := by
        simpa using hc
      have hval : getCurrentSetting today (s :: rest) =
          getCurrentSetting today rest := by
        simp [getCurrentSetting, hc2]
      constructor
      · intro hnone
        rw [hval] at hnone
        intro x hx
        rcases List.mem_cons.mp hx with rfl | hx
        · exact hc2
        · exact ih.1 hnone x hx
      · intro r hr
        rw [hval] at hr
        obtain ⟨hmem, hcov, hmax⟩ := ih.2 r hr
        refine ⟨List.mem_cons_of_mem _ hmem, hcov, ?_⟩
        intro x hx hcx
        rcases List.mem_cons.mp hx with rfl | hx
        · rw [hc2] at hcx; exact absurd hcx (by simp)
        · exact hmax x hx hcx

/-- Witness for C9: with rows starting day 0 (ending day 5) and day 3
(open-ended) and today = 4, the query returns the day-3 row, that row
covers today, and the other covering row starts no later. -/
theorem getCurrent_at_most_one_and_maximal_witness :
    getCurrentSetting 4
        [{ id := 1, monthlyLimit := 1, description := "c nine a",
           validFrom := 0, validUntil := some 5, isActive := false,
           createdBy := 7 },
         { id := 2, monthlyLimit := 2, description := "c nine b",
           validFrom := 3, validUntil := none, isActive := false,
           createdBy := 7 }] =
      some { id := 2, monthlyLimit := 2, description := "c nine b",
             validFrom := 3, validUntil := none, isActive := false,
             createdBy := 7 } ∧
    covers 4 { id := 2, monthlyLimit := 2, description := "c nine b",
               validFrom := 3, validUntil := none, isActive := false,
               createdBy := 7 } = true ∧
    (0 : Int) ≤ 3 := by
  have h := (getCurrent_at_most_one_and_maximal 4
    [{ id := 1, monthlyLimit := 1, description := "c nine a",
       validFrom := 0, validUntil := some 5, isActive := false,
       createdBy := 7 },
     { id := 2, monthlyLimit := 2, description := "c nine b",
       validFrom := 3, validUntil := none, isActive := false,
       createdBy := 7 }]).2
    { id := 2, monthlyLimit := 2, description := "c nine b",
      validFrom := 3, validUntil := none, isActive := false,
      createdBy := 7 } (by decide)
  exact ⟨by decide, h.2.1,
    h.2.2 { id := 1, monthlyLimit := 1, description := "c nine a",
            validFrom := 0, validUntil := some 5, isActive := false,
            createdBy := 7 } (by simp) (by decide)⟩

/-! ## Create handler lemmas -/

theorem create_ok_cases {today : Int} {newId creator : Nat} {limit : Int}
    {descr : String} {f : Int} {u? : Option Int} {store st2 : List Setting}
    {nr : Setting} {adjs : List AutoAdj}
    (h : createSetting today newId creator limit descr f u? store =
      .ok (st2, nr, adjs)) :
    (adjs = [] ∧ st2 = store ++ [nr]) ∨
    (∃ p, overlapping f u? store = [p] ∧ p.validUntil = none ∧
       p.validFrom < f ∧
       adjs = [{ id := p.id, description := p.description,
                 newValidUntil := f - 1 }] ∧
       st2 = setRowUntil p.id (some (f - 1)) store ++ [nr]) := by
  rw [createSetting.eq_def] at h
  split at h
  · exact absurd h (by simp)
  · split at h
    · exact absurd h (by simp)
    · split at h
      · left
        simp only [Except.ok.injEq, Prod.mk.injEq] at h
        exact ⟨h.2.2.symm, by rw [← h.1, ← h.2.1]⟩
      · next p heq =>
        split at h
        · next hcond =>
          right
          simp only [Except.ok.injEq, Prod.mk.injEq] at h
          refine ⟨p, heq, hcond.1, hcond.2, h.2.2.symm, ?_⟩
          rw [← h.1, ← h.2.1]
        · exact absurd h (by simp)
      · exact absurd h (by simp)

/-! ## Claim C3: create auto-adjust -/

/-- Rows of the C3 counterexample store, reachable from the empty store by
two successful creates: a bounded row for days 10 to 20 and an open-ended
row from day 0. -/
def c3rowA : Setting :=
  { id := 1, monthlyLimit := 520, description := "c three bounded",
    validFrom := 10, validUntil := some 20, isActive := false,
    createdBy := 7 }

def c3rowB : Setting :=
  { id := 2, monthlyLimit := 538, description := "c three open",
    validFrom := 0, validUntil := none, isActive := false,
    createdBy := 7 }

/-- C3 counterexample: the claim keys the auto-adjustment to "exactly one
existing record's interval intersects the proposed interval" and calls that
the only scenario in which create modifies an existing record.  On the
reachable store with rows [10, 20] and [0, infinity), the open-ended
proposal starting day 5 (today = 0) truly intersects BOTH rows — not
exactly one — yet the handler's computed overlap set holds only the
open-ended row, so the create succeeds and auto-shrinks that row to end at
day 4: an existing record is automatically modified outside the claimed
scenario. -/
theorem create_auto_adjust_counterexample :
    createSetting 0 1 7 520 "c three bounded" 10 (some 20) [] =
      .ok ([c3rowA], c3rowA, []) ∧
    createSetting 0 2 7 538 "c three open" 0 none [c3rowA] =
      .ok ([c3rowA, c3rowB], c3rowB, []) ∧
    proposedIntersects 5 none c3rowA = true ∧
    proposedIntersects 5 none c3rowB = true ∧
    c3rowA ≠ c3rowB ∧
    overlapping 5 none [c3rowA, c3rowB] = [c3rowB] ∧
    createSetting 0 3 7 600 "c three third" 5 none [c3rowA, c3rowB] =
      .ok ([c3rowA, { c3rowB with validUntil := some 4 },
            newRecord 3 7 600 "c three third" 5 none],
           newRecord 3 7 600 "c three third" 5 none,
           [{ id := 2, description := "c three open",
              newValidUntil := 4 }]) :=
  ⟨rfl, rfl, by decide, by decide, by decide, rfl, rfl⟩

/-- C3 amended: the trigger is the engine's computed overlap set, not the
set of truly intersecting records.  First conjunct: when the computed set
holds exactly one record and that record is open-ended and started
strictly before the new start date, create succeeds, that record gets
validUntil set to the day before the new start, the new row is inserted
with its given validFrom and validUntil (none when absent), and the
response carries the new row together with the recorded adjustment of the
predecessor.  Second conjunct, the only-scenario clause in computed-set
terms: every successful create either reports no adjustment and purely
appends the new row, leaving every existing row unmodified, or its
computed set was exactly one open-ended record starting strictly before
the new start and precisely that record's validUntil was rewritten to the
day before the new start, with the single adjustment reported. -/
theorem create_auto_adjust_amended (today : Int) (newId creator : Nat)
    (limit : Int) (descr : String) (f : Int) (u? : Option Int)
    (store : List Setting) (p : Setting)
    (hpast : today ≤ f) (hrange : ∀ u, u? = some u → f < u)
    (hov : overlapping f u? store = [p])
    (hopen : p.validUntil = none) (hbefore : p.validFrom < f) :
    (createSetting today newId creator limit descr f u? store =
      .ok (setRowUntil p.id (some (f - 1)) store
             ++ [newRecord newId creator limit descr f u?],
           newRecord newId creator limit descr f u?,
           [{ id := p.id, description := p.description,
              newValidUntil := f - 1 }])) ∧
    (∀ (t2 : Int) (i2 c2 : Nat) (l2 : Int) (d2 : String) (f2 : Int)
       (u2 : Option Int) (st2 st3 : List Setting) (nr : Setting)
       (adjs : List AutoAdj),
       createSetting t2 i2 c2 l2 d2 f2 u2 st2 = .ok (st3, nr, adjs) →
       (adjs = [] ∧ st3 = st2 ++ [nr]) ∨
       (∃ q, overlapping f2 u2 st2 = [q] ∧ q.validUntil = none ∧
          q.validFrom < f2 ∧
          adjs = [{ id := q.id, description := q.description,
                    newValidUntil := f2 - 1 }] ∧
          st3 = setRowUntil q.id (some (f2 - 1)) st2 ++ [nr])) := by
  constructor
  · have h1 : ¬ (f < today) := not_lt.mpr hpast
    rw [createSetting.eq_def, if_neg h1]
    cases u? with
    | none =>
      rw [hov]
      simp [hopen, hbefore]
    | some u =>
      have hd : decide (u ≤ f) = false :=
        decide_eq_false_iff_not.mpr (not_le.mpr (hrange u rfl))
      rw [hov]
      simp [hd, hopen, hbefore]
  · intro t2 i2 c2 l2 d2 f2 u2 st2 st3 nr adjs h
    exact create_ok_cases h

/-- Witness for the C3 amended theorem, matching the spec example mapped
to day numbers with day 0 standing for 2024-01-01: one open-ended row
starting day 0, a new open-ended row starting day 366 (2025-01-01); the
old row ends at day 365 (2024-12-31) and the new row stays open-ended. -/
theorem create_auto_adjust_amended_witness :
    createSetting 0 2 7 556 "c three new" 366 none
        [{ id := 1, monthlyLimit := 538, description := "c three old",
           validFrom := 0, validUntil := none, isActive := false,
           createdBy := 7 }] =
      .ok ([{ id := 1, monthlyLimit := 538, description := "c three old",
              validFrom := 0, validUntil := some 365, isActive := false,
              createdBy := 7 },
            { id := 2, monthlyLimit := 556, description := "c three new",
              validFrom := 366, validUntil := none, isActive := false,
              createdBy := 7 }],
           { id := 2, monthlyLimit := 556, description := "c three new",
             validFrom := 366, validUntil := none, isActive := false,
             createdBy := 7 },
           [{ id := 1, description := "c three old",
              newValidUntil := 365 }]) :=
  (create_auto_adjust_amended 0 2 7 556 "c three new" 366 none
      [{ id := 1, monthlyLimit := 538, description := "c three old",
         validFrom := 0, validUntil := none, isActive := false,
         createdBy := 7 }]
      { id := 1, monthlyLimit := 538, description := "c three old",
        validFrom := 0, validUntil := none, isActive := false,
        createdBy := 7 }
      (by decide) (fun u hu => by cases hu) rfl rfl (by decide)).1

/-! ## Claim C2: the computed overlap set and the conflict path -/

/-- Row used by the C2 counterexample: a bounded row covering days 10 to
20. -/
def c2row : Setting :=
  { id := 1, monthlyLimit := 538, description := "c two row",
    validFrom := 10, validUntil := some 20, isActive := false,
    createdBy := 7 }

/-- C2 counterexample: with one stored row spanning days 10 to 20 and a
proposed open-ended create starting day 5 (today = 0), the stored row
intersects the proposed interval, yet the handler's overlap query does not
select it: the computed set is empty and the create succeeds, where the
claim requires a Conflict error listing the intersecting row. -/
theorem create_overlap_set_counterexample :
    proposedIntersects 5 none c2row = true ∧
    overlapsQuery 5 none c2row = false ∧
    overlapping 5 none [c2row] = [] ∧
    createSetting 0 2 7 600 "c two new" 5 none [c2row] =
      .ok ([c2row, newRecord 2 7 600 "c two new" 5 none],
           newRecord 2 7 600 "c two new" 5 none, []) :=
  ⟨by decide, by decide, rfl, rfl⟩

/-- C2 amended: the computed overlap set is exact when the proposed
validUntil is present — for well-formed rows it selects exactly the rows
whose interval intersects the proposed one (first conjunct) — but when the
proposed validUntil is absent it degenerates to the rows starting on or
before the new start whose end is open or reaches the new start (second
conjunct), missing intersecting rows that start later.  Third conjunct:
whenever the computed set is non-empty and is not exactly one open-ended
row starting strictly before the new start, and the field validations pass,
the create fails with a Conflict error carrying every computed row with its
id, bounds and description, and the store is left unchanged. -/
theorem create_conflict_behavior :
    (∀ (f u : Int) (s : Setting), settingWF s = true → f ≤ u →
       overlapsQuery f (some u) s = proposedIntersects f (some u) s) ∧
    (∀ (f : Int) (s : Setting),
       overlapsQuery f none s =
         (decide (s.validFrom ≤ f) && nullOrGe s.validUntil f)) ∧
    (∀ (today : Int) (newId creator : Nat) (limit : Int) (descr : String)
       (f : Int) (u? : Option Int) (store : List Setting),
       overlapping f u? store ≠ [] →
       (∀ p, overlapping f u? store = [p] →
          ¬ (p.validUntil = none ∧ p.validFrom < f)) →
       today ≤ f → (∀ u, u? = some u → f < u) →
       createSetting today newId creator limit descr f u? store =
           .error (.conflict (overlapping f u? store)) ∧
         storeAfterCreate today newId creator limit descr f u? store =
           store) := by
  refine ⟨?_, ?_, ?_⟩
  · intro f u s hwf hfu
    cases hsu : s.validUntil with
    | none =>
      simp only [overlapsQuery, proposedIntersects, nullOrGe, hsu]
      rw [Bool.eq_iff_iff]
      simp only [Bool.or_eq_true, Bool.and_eq_true, Bool.and_false,
        decide_eq_true_eq, Bool.true_and, Bool.and_true,
        Bool.false_eq_true, and_false, or_false, and_true, true_and,
        false_or]
      omega
    | some su =>
      have hwf2 : s.validFrom ≤ su := by
        simpa [settingWF, hsu] using hwf
      simp only [overlapsQuery, proposedIntersects, nullOrGe, hsu]
      rw [Bool.eq_iff_iff]
      simp only [Bool.or_eq_true, Bool.and_eq_true, decide_eq_true_eq]
      omega
  · intro f s
    cases hsu : s.validUntil <;> simp [overlapsQuery, nullOrGe, hsu]
  · intro today newId creator limit descr f u? store hne hnot hpast hrange
    have h1 : ¬ (f < today) := not_lt.mpr hpast
    have hcerr : createSetting today newId creator limit descr f u? store =
        .error (.conflict (overlapping f u? store)) := by
      rw [createSetting.eq_def, if_neg h1]
      cases u? with
      | none =>
        cases hov : overlapping f none store with
        | nil => exact absurd hov hne
        | cons p rest =>
          cases rest with
          | nil =>
            have hnp := hnot p hov
            simp [hnp]
          | cons q rest2 =>
            simp
      | some u =>
        have hd : decide (u ≤ f) = false :=
          decide_eq_false_iff_not.mpr (not_le.mpr (hrange u rfl))
        cases hov : overlapping f (some u) store with
        | nil => exact absurd hov hne
        | cons p rest =>
          cases rest with
          | nil =>
            have hnp := hnot p hov
            simp [hd, hnp]
          | cons q rest2 =>
            simp [hd]
    exact ⟨hcerr, by rw [storeAfterCreate, hcerr]⟩

/-- Rows used by the C2 amended witness: the spec conflict example mapped
to day numbers with day 0 standing for 2024-01-01. -/
def c2rowA : Setting :=
  { id := 1, monthlyLimit := 538, description := "c two bounded",
    validFrom := 0, validUntil := some 181, isActive := false,
    createdBy := 7 }

def c2rowB : Setting :=
  { id := 2, monthlyLimit := 556, description := "c two open",
    validFrom := 182, validUntil := none, isActive := false,
    createdBy := 7 }

/-- Witness for the C2 amended theorem: rows for days 0 to 181 and 182
onward, proposed create for days 60 to 244 (today = 0): both rows are
computed as overlapping, the create fails with a Conflict listing both, and
the store is unchanged; also instantiates the exactness conjunct on the
bounded row. -/
theorem create_conflict_behavior_witness :
    (overlapsQuery 60 (some 244) c2rowA =
       proposedIntersects 60 (some 244) c2rowA) ∧
    overlapping 60 (some 244) [c2rowA, c2rowB] = [c2rowA, c2rowB] ∧
    createSetting 0 3 7 600 "c two third" 60 (some 244) [c2rowA, c2rowB] =
      .error (.conflict [c2rowA, c2rowB]) ∧
    storeAfterCreate 0 3 7 600 "c two third" 60 (some 244)
      [c2rowA, c2rowB] = [c2rowA, c2rowB] := by
  have hmain := create_conflict_behavior
  have hexact := hmain.1 60 244 c2rowA (by decide) (by decide)
  have hconf := hmain.2.2 0 3 7 600 "c two third" 60 (some 244)
    [c2rowA, c2rowB] (by decide)
    (by
      intro p hp
      have : ([c2rowA, c2rowB] : List Setting) = [p] := by
        rw [← hp]; rfl
      simp at this)
    (by decide) (by intro u hu; cases hu; decide)
  exact ⟨hexact, rfl, by rw [show overlapping 60 (some 244)
    [c2rowA, c2rowB] = [c2rowA, c2rowB] from rfl] at hconf; exact hconf.1,
    hconf.2⟩

/-! ## Claim C1: the no-overlap invariant (counterexample) -/

/-- First row of the C1 counterexample, created from the empty store. -/
def c1rowA : Setting :=
  { id := 1, monthlyLimit := 520, description := "c one first",
    validFrom := 10, validUntil := some 20, isActive := false,
    createdBy := 7 }

/-- Second row of the C1 counterexample, created next to the first. -/
def c1rowB : Setting :=
  { id := 2, monthlyLimit := 538, description := "c one second",
    validFrom := 5, validUntil := none, isActive := false,
    createdBy := 7 }

/-- C1 counterexample: starting from the empty store, two successful create
operations (today = 0; first a bounded row for days 10 to 20, then an
open-ended row starting day 5) leave two distinct rows whose intervals
intersect, so the no-overlap invariant does not hold after every sequence
of successful operations. -/
theorem no_overlap_invariant_counterexample :
    createSetting 0 1 7 520 "c one first" 10 (some 20) [] =
      .ok ([c1rowA], c1rowA, []) ∧
    createSetting 0 2 7 538 "c one second" 5 none [c1rowA] =
      .ok ([c1rowA, c1rowB], c1rowB, []) ∧
    c1rowA ≠ c1rowB ∧
    intervalsIntersect c1rowA c1rowB = true :=
  ⟨rfl, rfl, by decide, by decide⟩

/-! ## Recalculation lemmas -/

instance : IsTotal Setting (fun a b => a.validFrom ≤ b.validFrom) :=
  ⟨fun a b => Int.le_total a.validFrom b.validFrom⟩

instance : IsTrans Setting (fun a b => a.validFrom ≤ b.validFrom) :=
  ⟨fun _ _ _ hab hbc => le_trans hab hbc⟩

theorem recalcPass_cons_eq (s : Setting) (rest : List Setting) :
    recalcPass (s :: rest) =
      (if s.validUntil = nextBound rest then
        (s :: (recalcPass rest).1, (recalcPass rest).2.1,
         (recalcPass rest).2.2)
       else
        ({ s with validUntil := nextBound rest } :: (recalcPass rest).1,
         (recalcPass rest).2.1 + 1,
         { id := s.id, description := s.description,
           validFrom := s.validFrom, oldValidUntil := s.validUntil,
           newValidUntil := nextBound rest } :: (recalcPass rest).2.2)) := by
  by_cases h : s.validUntil = nextBound rest <;> simp [recalcPass, h]

theorem recalcPass_cons (s : Setting) (rest : List Setting) :
    (recalcPass (s :: rest)).1 =
      (if s.validUntil = nextBound rest then s
       else { s with validUntil := nextBound rest }) :: (recalcPass rest).1 := by
  by_cases h : s.validUntil = nextBound rest <;> simp [recalcPass, h]

theorem recalcPass_head_until (s : Setting) (rest : List Setting) :
    ((if s.validUntil = nextBound rest then s
      else { s with validUntil := nextBound rest }) : Setting).validUntil =
      nextBound rest := by
  by_cases h : s.validUntil = nextBound rest <;> simp [h]

theorem recalcPass_adjs (s : Setting) (rest : List Setting) :
    (recalcPass (s :: rest)).2.2 =
      (if s.validUntil = nextBound rest then (recalcPass rest).2.2
       else { id := s.id, description := s.description,
              validFrom := s.validFrom, oldValidUntil := s.validUntil,
              newValidUntil := nextBound rest } :: (recalcPass rest).2.2) := by
  by_cases h : s.validUntil = nextBound rest <;> simp [recalcPass, h]

theorem recalcPass_froms (l : List Setting) :
    ((recalcPass l).1).map (fun s => s.validFrom) =
      l.map (fun s => s.validFrom) := by
  induction l with
  | nil => rfl
  | cons s rest ih =>
    by_cases h : s.validUntil = nextBound rest <;>
      simp [recalcPass, h, ih]

theorem recalcPass_ids (l : List Setting) :
    ((recalcPass l).1).map (fun s => s.id) = l.map (fun s => s.id) := by
  induction l with
  | nil => rfl
  | cons s rest ih =>
    by_cases h : s.validUntil = nextBound rest <;>
      simp [recalcPass, h, ih]

/-- The fields of a row the recalculation pass never touches. -/
def frameFields (s : Setting) : Nat × Int × String × Int × Nat :=
  (s.id, s.monthlyLimit, s.description, s.validFrom, s.createdBy)

theorem recalcPass_frameFields (l : List Setting) :
    ((recalcPass l).1).map frameFields = l.map frameFields := by
  induction l with
  | nil => rfl
  | cons s rest ih =>
    by_cases h : s.validUntil = nextBound rest <;>
      simp [recalcPass, h, ih, frameFields]

theorem recalcPass_untilsCorrect (l : List Setting) :
    untilsCorrect (recalcPass l).1 := by
  induction l with
  | nil => trivial
  | cons s rest ih =>
    cases rest with
    | nil =>
      by_cases h : s.validUntil = nextBound ([] : List Setting)
      · rw [recalcPass_cons, if_pos h]
        show untilsCorrect [s]
        show s.validUntil = none
        exact h
      · rw [recalcPass_cons, if_neg h]
        show untilsCorrect [{ s with validUntil := nextBound [] }]
        rfl
    | cons t rest2 =>
      have hmap := recalcPass_froms (t :: rest2)
      cases hshape : (recalcPass (t :: rest2)).1 with
      | nil => rw [hshape] at hmap; simp at hmap
      | cons th tl =>
        rw [hshape] at hmap
        simp only [List.map_cons, List.cons.injEq] at hmap
        obtain ⟨hth, -⟩ := hmap
        have ihx : untilsCorrect (th :: tl) := by rw [← hshape]; exact ih
        rw [recalcPass_cons, hshape]
        refine ⟨?_, ihx⟩
        rw [recalcPass_head_until]
        simp [nextBound, hth]

theorem recalcPass_count (l : List Setting) :
    (recalcPass l).2.1 = (recalcPass l).2.2.length := by
  induction l with
  | nil => rfl
  | cons s rest ih =>
    by_cases h : s.validUntil = nextBound rest <;>
      simp [recalcPass, h, ih]

theorem recalcPass_changes_ne (l : List Setting) :
    ∀ a ∈ (recalcPass l).2.2, a.oldValidUntil ≠ a.newValidUntil := by
  induction l with
  | nil => intro a ha; simp [recalcPass] at ha
  | cons s rest ih =>
    intro a ha
    rw [recalcPass_adjs] at ha
    by_cases h : s.validUntil = nextBound rest
    · rw [if_pos h] at ha
      exact ih a ha
    · rw [if_neg h] at ha
      rcases List.mem_cons.mp ha with rfl | ha
      · simpa using h
      · exact ih a ha

theorem recalcPass_zip (l : List Setting) :
    ∀ q ∈ l.zip (recalcPass l).1,
      q.2.id = q.1.id ∧
      (q.1.validUntil = q.2.validUntil → q.2 = q.1) ∧
      (q.1.validUntil ≠ q.2.validUntil →
        ({ id := q.1.id, description := q.1.description,
           validFrom := q.1.validFrom, oldValidUntil := q.1.validUntil,
           newValidUntil := q.2.validUntil } : RecalcAdj)
          ∈ (recalcPass l).2.2) := by
  induction l with
  | nil => intro q hq; simp at hq
  | cons s rest ih =>
    intro q hq
    rw [recalcPass_cons] at hq
    by_cases h : s.validUntil = nextBound rest
    · rw [if_pos h, List.zip_cons_cons] at hq
      rcases List.mem_cons.mp hq with rfl | hq
      · exact ⟨rfl, fun _ => rfl, fun hne => absurd rfl hne⟩
      · have hx := ih q hq
        refine ⟨hx.1, hx.2.1, fun hne => ?_⟩
        rw [recalcPass_adjs, if_pos h]
        exact hx.2.2 hne
    · rw [if_neg h, List.zip_cons_cons] at hq
      rcases List.mem_cons.mp hq with rfl | hq
      · refine ⟨rfl, ?_, ?_⟩
        · intro hequ
          exact absurd (by simpa using hequ) h
        · intro _
          rw [recalcPass_adjs, if_neg h]
          simp
      · have hx := ih q hq
        refine ⟨hx.1, hx.2.1, fun hne => ?_⟩
        rw [recalcPass_adjs, if_neg h]
        exact List.mem_cons_of_mem _ (hx.2.2 hne)

theorem recalcPass_of_untilsCorrect (l : List Setting)
    (h : untilsCorrect l) : recalcPass l = (l, 0, []) := by
  induction l with
  | nil => rfl
  | cons s rest ih =>
    cases rest with
    | nil =>
      have hs : s.validUntil = none := h
      simp [recalcPass, nextBound, hs]
    | cons t rest2 =>
      obtain ⟨h1, h2⟩ := h
      have hcond : s.validUntil = nextBound (t :: rest2) := h1
      rw [recalcPass_cons_eq, if_pos hcond, ih h2]

theorem sortByFrom_sorted (l : List Setting) :
    (sortByFrom l).Pairwise (fun a b => a.validFrom ≤ b.validFrom) := by
  have h := List.sorted_insertionSort
    (fun a b : Setting => a.validFrom ≤ b.validFrom) l
  exact h

theorem sortByFrom_perm (l : List Setting) : (sortByFrom l).Perm l := by
  have h := List.perm_insertionSort
    (fun a b : Setting => a.validFrom ≤ b.validFrom) l
  exact h

theorem sortByFrom_of_sorted {l : List Setting}
    (h : l.Pairwise (fun a b => a.validFrom ≤ b.validFrom)) :
    sortByFrom l = l :=
  List.Sorted.insertionSort_eq h

theorem recalculateAll_out_sorted (store : List Setting) :
    ((recalculateAll store).1).Pairwise
      (fun a b => a.validFrom ≤ b.validFrom) := by
  have hm : ((sortByFrom store).map (fun s => s.validFrom)).Pairwise
      (fun a b => a ≤ b) := List.pairwise_map.mpr (sortByFrom_sorted store)
  rw [← recalcPass_froms (sortByFrom store)] at hm
  exact List.pairwise_map.mp hm

/-! ## Claim C5: recalculate correctness -/

/-- C5: after recalculateAll, in the output, which is in ascending
validFrom order, every row ends one day before its successor starts and
the last row is open-ended; adjustedCount equals the length of the
adjustments list; every reported adjustment is an actual change of
validUntil; and, pairing the sorted input with the output row by row, an
unchanged validUntil means the row object is untouched while a changed one
is recorded in the adjustments list. -/
theorem recalculate_correct (store : List Setting) :
    untilsCorrect (recalculateAll store).1 ∧
    (recalculateAll store).2.1 = (recalculateAll store).2.2.length ∧
    (∀ a ∈ (recalculateAll store).2.2,
       a.oldValidUntil ≠ a.newValidUntil) ∧
    (∀ q ∈ (sortByFrom store).zip (recalculateAll store).1,
       q.2.id = q.1.id ∧
       (q.1.validUntil = q.2.validUntil → q.2 = q.1) ∧
       (q.1.validUntil ≠ q.2.validUntil →
         ({ id := q.1.id, description := q.1.description,
            validFrom := q.1.validFrom, oldValidUntil := q.1.validUntil,
            newValidUntil := q.2.validUntil } : RecalcAdj)
           ∈ (recalculateAll store).2.2)) :=
  ⟨recalcPass_untilsCorrect _, recalcPass_count _, recalcPass_changes_ne _,
   recalcPass_zip _⟩

/-- First row of the C5 witness store: days 0 onward with a stale end. -/
def c5rowA : Setting :=
  { id := 1, monthlyLimit := 1, description := "c five a",
    validFrom := 0, validUntil := some 200, isActive := false,
    createdBy := 7 }

/-- Second row of the C5 witness store: days 182 onward, bounded. -/
def c5rowB : Setting :=
  { id := 2, monthlyLimit := 2, description := "c five b",
    validFrom := 182, validUntil := some 365, isActive := false,
    createdBy := 7 }

/-- Witness for C5: both rows change (the first now ends at day 181, the
last becomes open-ended), the count is two, and the change of the first
row is recorded in the adjustments list by the theorem's per-row clause. -/
theorem recalculate_correct_witness :
    (recalculateAll [c5rowA, c5rowB]).1 =
      [{ c5rowA with validUntil := some 181 },
       { c5rowB with validUntil := none }] ∧
    (recalculateAll [c5rowA, c5rowB]).2.1 = 2 ∧
    ({ id := 1, description := "c five a", validFrom := 0,
       oldValidUntil := some 200,
       newValidUntil := some 181 } : RecalcAdj) ∈
      (recalculateAll [c5rowA, c5rowB]).2.2 := by
  have h := (recalculate_correct [c5rowA, c5rowB]).2.2.2
    (c5rowA, { c5rowA with validUntil := some 181 }) (by decide)
  exact ⟨by decide, by decide, h.2.2 (by decide)⟩

/-! ## Claim C6: recalculate is idempotent -/

/-- C6: running recalculateAll on the result of a recalculateAll yields
zero changes: adjustedCount is zero and the adjustments list is empty on
the second run. -/
theorem recalculate_idempotent (store : List Setting) :
    (recalculateAll (recalculateAll store).1).2.1 = 0 ∧
    (recalculateAll (recalculateAll store).1).2.2 = [] := by
  have hu : untilsCorrect (recalculateAll store).1 :=
    recalcPass_untilsCorrect (sortByFrom store)
  have hs := recalculateAll_out_sorted store
  have heq : recalculateAll (recalculateAll store).1 =
      ((recalculateAll store).1, 0, []) := by
    calc recalculateAll (recalculateAll store).1
        = recalcPass (sortByFrom (recalculateAll store).1) := rfl
      _ = recalcPass (recalculateAll store).1 := by
            rw [sortByFrom_of_sorted hs]
      _ = ((recalculateAll store).1, 0, []) :=
            recalcPass_of_untilsCorrect _ hu
  rw [heq]
  exact ⟨rfl, rfl⟩

/-! ## Claim C10: recalculate touches only validUntil -/

/-- C10: the recalculation pass modifies only the validUntil field: the
id, monthlyLimit, description, validFrom and createdBy of every row are
unchanged, position by position against the input in sorted order, and no
row is created or deleted — the ids after the pass are a permutation of
the stored ids. -/
theorem recalculate_frame (store : List Setting) :
    ((recalculateAll store).1).map frameFields =
      (sortByFrom store).map frameFields ∧
    List.Perm (((recalculateAll store).1).map (fun s => s.id))
      (store.map (fun s => s.id)) := by
  refine ⟨recalcPass_frameFields _, ?_⟩
  have h1 : ((recalculateAll store).1).map (fun s => s.id) =
      (sortByFrom store).map (fun s => s.id) := recalcPass_ids _
  rw [h1]
  exact (sortByFrom_perm store).map _

/-! ## Claim C1 amended: recalculate restores the no-overlap invariant -/

theorem recalcPass_no_overlap_pairwise (l : List Setting)
    (hs : l.Pairwise (fun a b => a.validFrom < b.validFrom)) :
    ((recalcPass l).1).Pairwise
      (fun a b => intervalsIntersect a b = false ∧
        intervalsIntersect b a = false) := by
  induction l with
  | nil => exact List.Pairwise.nil
  | cons s rest ih =>
    rw [List.pairwise_cons] at hs
    obtain ⟨hhead, hrest⟩ := hs
    rw [recalcPass_cons, List.pairwise_cons]
    refine ⟨?_, ih hrest⟩
    intro b hb
    cases rest with
    | nil => simp [recalcPass] at hb
    | cons t rest2 =>
      have hu : ((if s.validUntil = nextBound (t :: rest2) then s
          else { s with validUntil := nextBound (t :: rest2) }) :
            Setting).validUntil = some (t.validFrom - 1) := by
        rw [recalcPass_head_until]; rfl
      have hbf : b.validFrom ∈ (t :: rest2).map (fun s => s.validFrom) := by
        rw [← recalcPass_froms]
        exact List.mem_map_of_mem _ hb
      have hbge : t.validFrom ≤ b.validFrom := by
        rw [List.pairwise_cons] at hrest
        simp only [List.map_cons, List.mem_cons, List.mem_map] at hbf
        rcases hbf with heq | ⟨x, hx, hxe⟩
        · rw [heq]
        · rw [← hxe]; exact le_of_lt (hrest.1 x hx)
      have hfalse : nullOrGe (some (t.validFrom - 1)) b.validFrom = false := by
        simp only [nullOrGe, decide_eq_false_iff_not]
        omega
      constructor
      · rw [intervalsIntersect, hu, hfalse, Bool.and_false]
      · rw [intervalsIntersect, hu, hfalse, Bool.false_and]

/-- C1 amended: the no-overlap invariant is not preserved by arbitrary
sequences of successful operations (see the counterexample); what holds is
that recalculateAll restores it: after recalculateAll on a store whose
rows carry pairwise distinct validFrom dates, no two distinct rows of the
result have intersecting intervals. -/
theorem recalculate_restores_no_overlap (store : List Setting)
    (hdist : store.Pairwise (fun a b => a.validFrom ≠ b.validFrom)) :
    ∀ a ∈ (recalculateAll store).1, ∀ b ∈ (recalculateAll store).1,
      a ≠ b → intervalsIntersect a b = false := by
  have hdist2 : (sortByFrom store).Pairwise
      (fun a b => a.validFrom ≠ b.validFrom) :=
    (List.Perm.pairwise_iff (fun h => Ne.symm h)
      (sortByFrom_perm store)).mpr hdist
  have hlt : (sortByFrom store).Pairwise
      (fun a b => a.validFrom < b.validFrom) := by
    have hcomb := List.Pairwise.and (sortByFrom_sorted store) hdist2
    exact hcomb.imp (fun h => lt_of_le_of_ne h.1 h.2)
  have hpw := recalcPass_no_overlap_pairwise _ hlt
  have hsym2 : Symmetric (fun a b : Setting =>
      intervalsIntersect a b = false ∧ intervalsIntersect b a = false) :=
    fun a b h => ⟨h.2, h.1⟩
  intro a ha b hb hne
  exact (List.Pairwise.forall hsym2 hpw ha hb hne).1

/-- Witness for the C1 amended theorem: recalculating the overlapping
two-row store of the counterexample (distinct start days 10 and 5)
produces rows for days 5 to 9 and 10 onward, and the two output rows no
longer intersect in either order. -/
theorem recalculate_restores_no_overlap_witness :
    (recalculateAll [c1rowA, c1rowB]).1 =
      [{ c1rowB with validUntil := some 9 },
       { c1rowA with validUntil := none }] ∧
    intervalsIntersect { c1rowB with validUntil := some 9 }
      { c1rowA with validUntil := none } = false ∧
    intervalsIntersect { c1rowA with validUntil := none }
      { c1rowB with validUntil := some 9 } = false := by
  have h := recalculate_restores_no_overlap [c1rowA, c1rowB] (by decide)
  refine ⟨by decide, ?_, ?_⟩
  · exact h _ (by decide) _ (by decide) (by decide)
  · exact h _ (by decide) _ (by decide) (by decide)

/-! ## Claim C4: delete back-adjustment -/

/-- C4: for a successful delete of an existing row r with validFrom
strictly after today: if a previous row exists — p is a stored row other
than r with validFrom strictly before r and maximal among those — then
its validUntil is rewritten unconditionally (even when the value is
unchanged) and the single adjustment is reported: the new value is one day
before the start of the chronologically next row when one exists and NULL
otherwise (conjuncts on nextSetting), r is removed, and the response
carries the snapshot of r with the adjustment list.  Without a previous
row, r is simply removed and no adjustment is reported. -/
theorem delete_back_adjust (today : Int) (sid : Nat)
    (store : List Setting) (r : Setting)
    (hfind : findById store sid = some r) (hfut : today < r.validFrom) :
    (∀ p, prevSetting store r = some p →
       p ∈ store ∧ p.id ≠ r.id ∧ p.validFrom < r.validFrom ∧
       (∀ s ∈ store, s.id ≠ r.id → s.validFrom < r.validFrom →
          s.validFrom ≤ p.validFrom) ∧
       deleteSetting today sid store =
         .ok (removeRow sid (setRowUntil p.id (delNewUntil store r) store),
              r,
              [{ id := p.id, description := p.description,
                 oldValidUntil := p.validUntil,
                 newValidUntil := delNewUntil store r }])) ∧
    (prevSetting store r = none →
       deleteSetting today sid store = .ok (removeRow sid store, r, [])) ∧
    (∀ n, nextSetting store r = some n →
       n ∈ store ∧ n.id ≠ r.id ∧ r.validFrom < n.validFrom ∧
       (∀ s ∈ store, s.id ≠ r.id → r.validFrom < s.validFrom →
          n.validFrom ≤ s.validFrom) ∧
       delNewUntil store r = some (n.validFrom - 1)) ∧
    (nextSetting store r = none → delNewUntil store r = none) := by
  have hif : ¬ (r.validFrom ≤ today) := not_le.mpr hfut
  refine ⟨?_, ?_, ?_, ?_⟩
  · intro p hp
    obtain ⟨hpe, hpmax⟩ := pickMaxFrom_spec hp
    have hpe2 := List.mem_filter.mp hpe
    have hpprops : p.validFrom < r.validFrom ∧ p.id ≠ r.id := by
      simpa using hpe2.2
    refine ⟨hpe2.1, hpprops.2, hpprops.1, ?_, ?_⟩
    · intro s hs hsid hsfrom
      refine hpmax s (List.mem_filter.mpr ⟨hs, ?_⟩)
      simp [hsid, hsfrom]
    · rw [deleteSetting, hfind]
      simp only [hif, if_false, ite_false, hp]
  · intro hp
    rw [deleteSetting, hfind]
    simp only [hif, if_false, ite_false, hp]
  · intro n hn
    obtain ⟨hne, hnmin⟩ := pickMinFrom_spec hn
    have hne2 := List.mem_filter.mp hne
    have hnprops : r.validFrom < n.validFrom ∧ n.id ≠ r.id := by
      simpa using hne2.2
    refine ⟨hne2.1, hnprops.2, hnprops.1, ?_, ?_⟩
    · intro s hs hsid hsfrom
      refine hnmin s (List.mem_filter.mpr ⟨hs, ?_⟩)
      simp [hsid, hsfrom]
    · rw [delNewUntil, hn]
  · intro hn
    rw [delNewUntil, hn]

/-- First row of the C4 witness store: days 0 to 181. -/
def c4rowA : Setting :=
  { id := 1, monthlyLimit := 1, description := "c four a",
    validFrom := 0, validUntil := some 181, isActive := false,
    createdBy := 7 }

/-- Second row of the C4 witness store: days 182 to 365, to be deleted. -/
def c4rowB : Setting :=
  { id := 2, monthlyLimit := 2, description := "c four b",
    validFrom := 182, validUntil := some 365, isActive := false,
    createdBy := 7 }

/-- Third row of the C4 witness store: day 366 onward, open-ended. -/
def c4rowC : Setting :=
  { id := 3, monthlyLimit := 3, description := "c four c",
    validFrom := 366, validUntil := some 999, isActive := false,
    createdBy := 7 }

/-- Witness for C4, the spec three-row example in day numbers: deleting the
middle future row (today = 100) rewrites the first row's validUntil to one
day before the third row's start (365), removes the middle row, and reports
snapshot and adjustment. -/
theorem delete_back_adjust_witness :
    deleteSetting 100 2 [c4rowA, c4rowB, c4rowC] =
      .ok ([{ c4rowA with validUntil := some 365 }, c4rowC], c4rowB,
           [{ id := 1, description := "c four a",
              oldValidUntil := some 181, newValidUntil := some 365 }]) ∧
    prevSetting [c4rowA, c4rowB, c4rowC] c4rowB = some c4rowA ∧
    nextSetting [c4rowA, c4rowB, c4rowC] c4rowB = some c4rowC ∧
    delNewUntil [c4rowA, c4rowB, c4rowC] c4rowB = some 365 := by
  have h := (delete_back_adjust 100 2 [c4rowA, c4rowB, c4rowC] c4rowB
    rfl (by decide)).1 c4rowA rfl
  exact ⟨h.2.2.2.2, rfl, rfl, rfl⟩

end Minijob
